import Mathlib

/-!
Shallow embedding of the MIME map codec (src/src/map.rs).

Modelling conventions:
* Bytes are `Nat` (values of `u8`); a buffer (`Vec<u8>` / `&[u8]`) is `List Nat`.
* `u32` / `u64` / `usize` values are `Nat`.  The repository targets a 64-bit
  host, where `usize ↔ u64` conversions (`try_into`) are infallible, so the
  `IntegerConvertionError` branches of the source are dead and the serializers
  are total functions.
* An `f32` field is represented by its 32-bit IEEE-754 bit pattern (a `Nat`):
  the codec never computes with floats, it only transcribes their bits via
  `to_le_bytes` / `from_le_bytes`, so the bit pattern is the faithful value.
* Rust slicing `buffer[a..b]` panics when `b > buffer.len()`; deserializers
  therefore return a `DecodeResult` with an explicit `panic` outcome, produced
  exactly where the source slices without a preceding bounds check.
* Serializers mirror the source's `&mut Vec<u8>` append style: they take the
  current buffer and return the extended buffer.
-/

/-- Modelled from the spec: the repository's `Error` enum is not under `src/`
(only `use crate::*` imports it); §7 of the spec enumerates the error taxonomy
and `map.rs` names the variants used here. Payloads (wrapped conversion / I/O
errors) are irrelevant to the claims and omitted. -/
inductive Error where
  | BufferToSmallVertex
  | BufferToSmallSector
  | BufferToSmallMap
  | IncorrectMagic
  | IncorrectVersion
  | SliceConvertionError
  | IntegerConvertionError
  | FileCreationFailed
  | FileWriteFailed
deriving DecidableEq

/-- Result of a deserialization call: success, a returned `Err`, or a Rust
panic (out-of-bounds slice). -/
inductive DecodeResult (α : Type) where
  | ok : α → DecodeResult α
  | err : Error → DecodeResult α
  | panic : DecodeResult α
deriving DecidableEq

/-- Monadic sequencing of `DecodeResult`, the model of Rust's `?` operator
(with panics propagating, as they do in Rust). -/
def DecodeResult.bind {α β : Type} :
    DecodeResult α → (α → DecodeResult β) → DecodeResult β
  | .ok a, f => f a
  | .err e, _ => .err e
  | .panic, _ => .panic

/-- The current version of the file format (`CURRENT_VERSION`). -/
def CURRENT_VERSION : Nat := 1

/-- The size of the mime header (`HEADER_SIZE = 4 + size_of::<u32>()`). -/
def HEADER_SIZE : Nat := 8

/-- The header magic `b"MIME"` as bytes. -/
def HEADER_MAGIC : List Nat := [77, 73, 77, 69]

/-- The size of a single vertex (`VERTEX_SIZE = 7 * size_of::<f32>()`). -/
def VERTEX_SIZE : Nat := 28

/-- The size of a single index (`INDEX_SIZE = size_of::<u32>()`). -/
def INDEX_SIZE : Nat := 4

/-- Little-endian byte encoding: `leBytes k n` is the `k`-byte little-endian
encoding of `n` (the model of `to_le_bytes` on a `k`-byte integer). -/
def leBytes : Nat → Nat → List Nat
  | 0, _ => []
  | k + 1, n => n % 256 :: leBytes k (n / 256)

/-- Little-endian byte decoding (the model of `from_le_bytes`). -/
def leVal (bs : List Nat) : Nat :=
  bs.foldr (fun b acc => b + 256 * acc) 0

/-- Rust slicing `buffer[start..stop]`: `none` models the panic raised when
the range is out of bounds. -/
def slice? (buffer : List Nat) (start stop : Nat) : Option (List Nat) :=
  if start ≤ stop ∧ stop ≤ buffer.length then
    some ((buffer.drop start).take (stop - start))
  else
    none

/-- The color of a vertex (`[f32; 4]`, stored as bit patterns). -/
structure RGBA where
  r : Nat
  g : Nat
  b : Nat
  a : Nat
deriving DecidableEq

/-- A single vertex in 3D space (fields are `f32` bit patterns). -/
structure Vertex where
  x : Nat
  y : Nat
  z : Nat
  color : RGBA
deriving DecidableEq

/-- A mesh: vertex buffer plus `u32` index buffer. -/
structure Mesh where
  vertex_buffer : List Vertex
  index_buffer : List Nat
deriving DecidableEq

/-- A sector of the map: floor, ceiling and wall meshes. -/
structure Sector where
  floor_mesh : Mesh
  ceiling_mesh : Mesh
  wall_mesh : Mesh
deriving DecidableEq

/-- The map structure: the sectors of the map. -/
structure Map where
  sectors : List Sector
deriving DecidableEq

/-- `Vertex::serialize`: seven successive `extend_from_slice` calls appending
x, y, z, r, g, b, a as 4-byte little-endian `f32` bit patterns. -/
def Vertex.serialize (v : Vertex) (buffer : List Nat) : List Nat :=
  buffer ++ leBytes 4 v.x ++ leBytes 4 v.y ++ leBytes 4 v.z
    ++ leBytes 4 v.color.r ++ leBytes 4 v.color.g
    ++ leBytes 4 v.color.b ++ leBytes 4 v.color.a

/-- The `for vertex in &self.vertex_buffer` loop of `Mesh::serialize`. -/
def serializeVertices (vs : List Vertex) (buffer : List Nat) : List Nat :=
  match vs with
  | [] => buffer
  | v :: rest => serializeVertices rest (v.serialize buffer)

/-- The `for index in &self.index_buffer` loop of `Mesh::serialize`, appending
each index as 4 little-endian bytes. -/
def serializeIndices (ix : List Nat) (buffer : List Nat) : List Nat :=
  match ix with
  | [] => buffer
  | i :: rest => serializeIndices rest (buffer ++ leBytes 4 i)

/-- `Mesh::serialize`: vertex count and index count as 8-byte little-endian
integers, then the vertices, then the indices.  (The `usize → u64` count
conversions are infallible on the 64-bit target.) -/
def Mesh.serialize (m : Mesh) (buffer : List Nat) : List Nat :=
  serializeIndices m.index_buffer
    (serializeVertices m.vertex_buffer
      (buffer ++ leBytes 8 m.vertex_buffer.length
              ++ leBytes 8 m.index_buffer.length))

/-- `Sector::serialize`: each mesh is serialized into a fresh temp buffer and
appended after its 8-byte little-endian byte-length prefix, in the fixed order
floor, ceiling, wall. -/
def Sector.serialize (s : Sector) (buffer : List Nat) : List Nat :=
  let temp1 := Mesh.serialize s.floor_mesh []
  let buffer1 := buffer ++ leBytes 8 temp1.length ++ temp1
  let temp2 := Mesh.serialize s.ceiling_mesh []
  let buffer2 := buffer1 ++ leBytes 8 temp2.length ++ temp2
  let temp3 := Mesh.serialize s.wall_mesh []
  buffer2 ++ leBytes 8 temp3.length ++ temp3

/-- The `for sector in &self.sectors` loop of `Map::serialize`: each sector is
serialized into a fresh buffer and appended after its 8-byte little-endian
byte-length prefix. -/
def serializeSectors (ss : List Sector) (buffer : List Nat) : List Nat :=
  match ss with
  | [] => buffer
  | s :: rest =>
    let sector_buffer := Sector.serialize s []
    serializeSectors rest
      (buffer ++ leBytes 8 sector_buffer.length ++ sector_buffer)

/-- `Map::serialize`: magic, 4-byte little-endian version, 8-byte little-endian
sector count, then the length-prefixed sector blocks. -/
def Map.serialize (m : Map) (buffer : List Nat) : List Nat :=
  serializeSectors m.sectors
    (buffer ++ HEADER_MAGIC ++ leBytes 4 CURRENT_VERSION
            ++ leBytes 8 m.sectors.length)

/-- `Vertex::deserialize`: explicit length guard, then seven in-bounds 4-byte
reads (the `try_into` on an exactly-4-byte slice is infallible). -/
def Vertex.deserialize (buffer : List Nat) : DecodeResult Vertex :=
  if buffer.length < VERTEX_SIZE then .err .BufferToSmallVertex
  else
    .ok ⟨leVal (buffer.take 4),
         leVal ((buffer.drop 4).take 4),
         leVal ((buffer.drop 8).take 4),
         ⟨leVal ((buffer.drop 12).take 4),
          leVal ((buffer.drop 16).take 4),
          leVal ((buffer.drop 20).take 4),
          leVal ((buffer.drop 24).take 4)⟩⟩

/-- A fixed-stride decode loop: element `i` is decoded from the slice
`buffer[i*esize .. i*esize + esize]`.  Instantiated with stride
`VERTEX_SIZE`/`Vertex::deserialize` for the vertex loop of
`Mesh::deserialize` and with stride `INDEX_SIZE`/`u32::from_le_bytes` for its
index loop.  The slice is taken exactly as in the source, so an out-of-range
start or stop yields `panic`. -/
def decodeElems {α : Type} (esize : Nat) (dec : List Nat → DecodeResult α)
    (buffer : List Nat) : Nat → Nat → DecodeResult (List α)
  | _, 0 => .ok []
  | i, n + 1 =>
    match slice? buffer (i * esize) (i * esize + esize) with
    | none => .panic
    | some chunk =>
      match dec chunk with
      | .err e => .err e
      | .panic => .panic
      | .ok a =>
        match decodeElems esize dec buffer (i + 1) n with
        | .ok rest => .ok (a :: rest)
        | .err e => .err e
        | .panic => .panic

/-- `Mesh::deserialize`: guard for the 16 count bytes, read both counts, guard
the vertex region, decode the vertices, guard the index region, decode the
indices.  Two behaviours of the 64-bit target are modelled exactly because the
counts are untrusted:
* the size guards multiply in `usize`, which wraps modulo `2^64` in the
  default release profile (modelled here; a debug build instead panics at the
  multiply on the same overflowing inputs, so every input on which this model
  panics makes a debug build panic as well);
* `Vec::with_capacity` (map.rs:213 for vertices, and map.rs:224 for indices,
  where it runs BEFORE the index-region guard of map.rs:226) panics with a
  capacity overflow whenever the requested capacity in bytes exceeds
  `isize::MAX = 2^63 - 1`; that computation (`Layout::array`) is checked and
  never wraps.  `size_of::<Vertex>() = 28` and `size_of::<u32>() = 4`. -/
def Mesh.deserialize (buffer : List Nat) : DecodeResult Mesh :=
  if buffer.length < 16 then .err .BufferToSmallSector
  else
    let vertex_count := leVal (buffer.take 8)
    let index_count := leVal ((buffer.drop 8).take 8)
    let buffer2 := buffer.drop 16
    if buffer2.length < VERTEX_SIZE * vertex_count % 2 ^ 64 then
      .err .BufferToSmallSector
    else if 2 ^ 63 ≤ vertex_count * VERTEX_SIZE then .panic
    else
      match decodeElems VERTEX_SIZE Vertex.deserialize buffer2 0 vertex_count with
      | .err e => .err e
      | .panic => .panic
      | .ok vertex_buffer =>
        let buffer3 := buffer2.drop (vertex_count * VERTEX_SIZE % 2 ^ 64)
        if 2 ^ 63 ≤ index_count * INDEX_SIZE then .panic
        else if buffer3.length < INDEX_SIZE * index_count % 2 ^ 64 then
          .err .BufferToSmallSector
        else
          match decodeElems INDEX_SIZE (fun chunk => .ok (leVal chunk))
              buffer3 0 index_count with
          | .err e => .err e
          | .panic => .panic
          | .ok index_buffer => .ok ⟨vertex_buffer, index_buffer⟩

/-- `Sector::deserialize`: three rounds of (read 8-byte length prefix, slice
exactly that many bytes, decode a mesh).  The source performs every one of
these slices with no bounds check, so each is modelled with `slice?` and can
yield `panic`. -/
def Sector.deserialize (buffer : List Nat) : DecodeResult Sector :=
  match slice? buffer 0 8 with
  | none => .panic
  | some sizeBytes1 =>
    let floor_mesh_size := leVal sizeBytes1
    let buffer1 := buffer.drop 8
    match slice? buffer1 0 floor_mesh_size with
    | none => .panic
    | some floorBytes =>
      (Mesh.deserialize floorBytes).bind fun floor_mesh =>
        let buffer2 := buffer1.drop floor_mesh_size
        match slice? buffer2 0 8 with
        | none => .panic
        | some sizeBytes2 =>
          let ceiling_mesh_size := leVal sizeBytes2
          let buffer3 := buffer2.drop 8
          match slice? buffer3 0 ceiling_mesh_size with
          | none => .panic
          | some ceilingBytes =>
            (Mesh.deserialize ceilingBytes).bind fun ceiling_mesh =>
              let buffer4 := buffer3.drop ceiling_mesh_size
              match slice? buffer4 0 8 with
              | none => .panic
              | some sizeBytes3 =>
                let wall_mesh_size := leVal sizeBytes3
                let buffer5 := buffer4.drop 8
                match slice? buffer5 0 wall_mesh_size with
                | none => .panic
                | some wallBytes =>
                  (Mesh.deserialize wallBytes).bind fun wall_mesh =>
                    .ok ⟨floor_mesh, ceiling_mesh, wall_mesh⟩

/-- The sector loop of `Map::deserialize`: at byte `offset` of the body, read
an 8-byte length prefix, slice exactly `sector_size` bytes, decode a sector,
then advance the offset by `sector_size + 8`.  Both slices are unchecked in
the source and can yield `panic`. -/
def decodeSectors (buffer : List Nat) : Nat → Nat → DecodeResult (List Sector)
  | _, 0 => .ok []
  | offset, n + 1 =>
    match slice? buffer offset (offset + 8) with
    | none => .panic
    | some sizeBytes =>
      let sector_size := leVal sizeBytes
      match slice? buffer (offset + 8) (offset + 8 + sector_size) with
      | none => .panic
      | some sectorBytes =>
        (Sector.deserialize sectorBytes).bind fun s =>
          match decodeSectors buffer (offset + sector_size + 8) n with
          | .ok rest => .ok (s :: rest)
          | .err e => .err e
          | .panic => .panic

/-- `Map::deserialize`: header-size guard, magic check, version check, sector
count guard and read, then the sector loop. -/
def Map.deserialize (buffer : List Nat) : DecodeResult Map :=
  if buffer.length < HEADER_SIZE then .err .BufferToSmallMap
  else if buffer.take 4 ≠ HEADER_MAGIC then .err .IncorrectMagic
  else if leVal ((buffer.drop 4).take 4) ≠ CURRENT_VERSION then
    .err .IncorrectVersion
  else
    let buffer1 := buffer.drop 8
    if buffer1.length < 8 then .err .BufferToSmallMap
    else
      let sector_count := leVal (buffer1.take 8)
      let buffer2 := buffer1.drop 8
      (decodeSectors buffer2 0 sector_count).bind fun sectors => .ok ⟨sectors⟩

/-- Well-formedness of a `Vertex` value in the model: every field is a genuine
32-bit pattern.  Automatic for a Rust `f32`. -/
def Vertex.Wf (v : Vertex) : Prop :=
  v.x < 2 ^ 32 ∧ v.y < 2 ^ 32 ∧ v.z < 2 ^ 32 ∧
  v.color.r < 2 ^ 32 ∧ v.color.g < 2 ^ 32 ∧
  v.color.b < 2 ^ 32 ∧ v.color.a < 2 ^ 32

/-- Well-formedness of a `Mesh` value in the model: 32-bit vertex fields and
indices, and a serialized size below `2^63` (a Rust buffer is a `Vec<u8>`,
whose length never exceeds `isize::MAX = 2^63 - 1`, so this is automatic for
every Rust value; it also keeps the decoder's `usize` size products and
`Vec::with_capacity` requests below their overflow thresholds). -/
def Mesh.Wf (m : Mesh) : Prop :=
  (∀ v ∈ m.vertex_buffer, v.Wf) ∧ (∀ i ∈ m.index_buffer, i < 2 ^ 32) ∧
  (Mesh.serialize m []).length < 2 ^ 63

/-- Well-formedness of a `Sector` value in the model. -/
def Sector.Wf (s : Sector) : Prop :=
  s.floor_mesh.Wf ∧ s.ceiling_mesh.Wf ∧ s.wall_mesh.Wf ∧
  (Sector.serialize s []).length < 2 ^ 64

/-- Well-formedness of a `Map` value in the model. -/
def Map.Wf (m : Map) : Prop :=
  (∀ s ∈ m.sectors, s.Wf) ∧ m.sectors.length < 2 ^ 64

instance (v : Vertex) : Decidable v.Wf := by unfold Vertex.Wf; infer_instance

instance (m : Mesh) : Decidable m.Wf := by unfold Mesh.Wf; infer_instance

instance (s : Sector) : Decidable s.Wf := by unfold Sector.Wf; infer_instance

instance (m : Map) : Decidable m.Wf := by unfold Map.Wf; infer_instance

/-- Concatenation of the encodings of the elements of a list; used to state
what the serializer loops produce. -/
def encList {α : Type} (enc : α → List Nat) : List α → List Nat
  | [] => []
  | x :: xs => enc x ++ encList enc xs

theorem length_leBytes (k n : Nat) : (leBytes k n).length = k := by
  induction k generalizing n with
  | zero => rfl
  | succ k ih => simp [leBytes, ih]

theorem leVal_nil : leVal [] = 0 := rfl

theorem leVal_cons (b : Nat) (bs : List Nat) :
    leVal (b :: bs) = b + 256 * leVal bs := rfl

theorem leVal_leBytes (k n : Nat) : leVal (leBytes k n) = n % 256 ^ k := by
  induction k generalizing n with
  | zero => simp [leBytes, leVal, Nat.mod_one]
  | succ k ih =>
    rw [leBytes, leVal_cons, ih, pow_succ']
    exact (Nat.mod_mul).symm

theorem leVal_leBytes_of_lt {k n : Nat} (h : n < 256 ^ k) :
    leVal (leBytes k n) = n := by
  rw [leVal_leBytes, Nat.mod_eq_of_lt h]

theorem length_encList {α : Type} (enc : α → List Nat) (k : Nat)
    (xs : List α) (h : ∀ x ∈ xs, (enc x).length = k) :
    (encList enc xs).length = k * xs.length := by
  induction xs with
  | nil => simp [encList]
  | cons x xs ih =>
    simp only [encList, List.length_append, List.length_cons]
    rw [h x (by simp), ih (fun y hy => h y (by simp [hy]))]
    ring

theorem slice?_eq_some {buffer : List Nat} {start stop : Nat}
    (h1 : start ≤ stop) (h2 : stop ≤ buffer.length) :
    slice? buffer start stop = some ((buffer.drop start).take (stop - start)) := by
  unfold slice?
  rw [if_pos ⟨h1, h2⟩]

theorem slice?_eq_none {buffer : List Nat} {start stop : Nat}
    (h : buffer.length < stop) :
    slice? buffer start stop = none := by
  unfold slice?
  rw [if_neg]
  rintro ⟨-, h2⟩
  omega

theorem take_of_append {c rest : List Nat} {k : Nat} (h : c.length = k) :
    (c ++ rest).take k = c := List.take_left' h

theorem drop_of_append {c rest : List Nat} {k : Nat} (h : c.length = k) :
    (c ++ rest).drop k = rest := List.drop_left' h

theorem drop_add_of_append {c rest : List Nat} {k n : Nat} (h : c.length = k) :
    (c ++ rest).drop (k + n) = rest.drop n := by
  rw [← List.drop_drop, drop_of_append h]

theorem vertex_serialize_append (v : Vertex) (buffer : List Nat) :
    Vertex.serialize v buffer = buffer ++ Vertex.serialize v [] := by
  simp [Vertex.serialize]

theorem length_vertex_serialize (v : Vertex) :
    (Vertex.serialize v []).length = 28 := by
  simp [Vertex.serialize, length_leBytes]

theorem serializeVertices_eq (vs : List Vertex) (buffer : List Nat) :
    serializeVertices vs buffer =
      buffer ++ encList (fun v => Vertex.serialize v []) vs := by
  induction vs generalizing buffer with
  | nil => simp [serializeVertices, encList]
  | cons v vs ih =>
    rw [serializeVertices, ih, vertex_serialize_append]
    simp [encList]

theorem serializeIndices_eq (ix : List Nat) (buffer : List Nat) :
    serializeIndices ix buffer = buffer ++ encList (leBytes 4) ix := by
  induction ix generalizing buffer with
  | nil => simp [serializeIndices, encList]
  | cons i ix ih =>
    rw [serializeIndices, ih]
    simp [encList]

theorem mesh_serialize_eq (m : Mesh) (buffer : List Nat) :
    Mesh.serialize m buffer =
      buffer ++ (leBytes 8 m.vertex_buffer.length ++
        (leBytes 8 m.index_buffer.length ++
          (encList (fun v => Vertex.serialize v []) m.vertex_buffer ++
            encList (leBytes 4) m.index_buffer))) := by
  rw [Mesh.serialize, serializeVertices_eq, serializeIndices_eq]
  simp

theorem mesh_serialize_append (m : Mesh) (buffer : List Nat) :
    Mesh.serialize m buffer = buffer ++ Mesh.serialize m [] := by
  rw [mesh_serialize_eq, mesh_serialize_eq]
  simp

theorem length_mesh_serialize (m : Mesh) :
    (Mesh.serialize m []).length =
      16 + 28 * m.vertex_buffer.length + 4 * m.index_buffer.length := by
  rw [mesh_serialize_eq]
  simp only [List.nil_append, List.length_append, length_leBytes]
  rw [length_encList _ 28 _ (fun v _ => length_vertex_serialize v),
    length_encList _ 4 _ (fun i _ => length_leBytes 4 i)]
  ring

theorem sector_serialize_eq (s : Sector) (buffer : List Nat) :
    Sector.serialize s buffer =
      buffer ++ (leBytes 8 (Mesh.serialize s.floor_mesh []).length ++
        (Mesh.serialize s.floor_mesh [] ++
          (leBytes 8 (Mesh.serialize s.ceiling_mesh []).length ++
            (Mesh.serialize s.ceiling_mesh [] ++
              (leBytes 8 (Mesh.serialize s.wall_mesh []).length ++
                Mesh.serialize s.wall_mesh []))))) := by
  rw [Sector.serialize]
  simp

theorem sector_serialize_append (s : Sector) (buffer : List Nat) :
    Sector.serialize s buffer = buffer ++ Sector.serialize s [] := by
  rw [sector_serialize_eq, sector_serialize_eq]
  simp

theorem serializeSectors_eq (ss : List Sector) (buffer : List Nat) :
    serializeSectors ss buffer =
      buffer ++ encList
        (fun s => leBytes 8 (Sector.serialize s []).length ++ Sector.serialize s [])
        ss := by
  induction ss generalizing buffer with
  | nil => simp [serializeSectors, encList]
  | cons s ss ih =>
    rw [serializeSectors, ih]
    simp [encList]

theorem map_serialize_eq (m : Map) (buffer : List Nat) :
    Map.serialize m buffer =
      buffer ++ (HEADER_MAGIC ++ (leBytes 4 CURRENT_VERSION ++
        (leBytes 8 m.sectors.length ++
          encList
            (fun s => leBytes 8 (Sector.serialize s []).length ++ Sector.serialize s [])
            m.sectors))) := by
  rw [Map.serialize, serializeSectors_eq]
  simp

theorem map_serialize_append (m : Map) (buffer : List Nat) :
    Map.serialize m buffer = buffer ++ Map.serialize m [] := by
  rw [map_serialize_eq, map_serialize_eq]
  simp

theorem leVal_leBytes4 {n : Nat} (h : n < 2 ^ 32) :
    leVal (leBytes 4 n) = n := by
  refine leVal_leBytes_of_lt ?_
  norm_num
  omega

theorem leVal_leBytes8 {n : Nat} (h : n < 2 ^ 64) :
    leVal (leBytes 8 n) = n := by
  refine leVal_leBytes_of_lt ?_
  norm_num
  omega

theorem vertex_deserialize_append (v : Vertex) (hw : v.Wf) (rest : List Nat) :
    Vertex.deserialize (Vertex.serialize v [] ++ rest) = .ok v := by
  obtain ⟨x, y, z, r, g, b, a⟩ := v
  obtain ⟨hx, hy, hz, hr, hg, hb, ha⟩ := hw
  have hlen : (Vertex.serialize ⟨x, y, z, ⟨r, g, b, a⟩⟩ [] ++ rest).length =
      28 + rest.length := by
    simp [length_vertex_serialize]
  rw [Vertex.deserialize, if_neg (by simp [hlen, VERTEX_SIZE])]
  simp only [Vertex.serialize, List.nil_append, List.append_assoc]
  simp [List.take_append_eq_append_take, List.drop_append_eq_append_drop,
    List.take_of_length_le, List.drop_of_length_le, length_leBytes,
    leVal_leBytes4 hx, leVal_leBytes4 hy, leVal_leBytes4 hz,
    leVal_leBytes4 hr, leVal_leBytes4 hg, leVal_leBytes4 hb, leVal_leBytes4 ha]

theorem vertex_deserialize_exact (v : Vertex) (hw : v.Wf) :
    Vertex.deserialize (Vertex.serialize v []) = .ok v := by
  have := vertex_deserialize_append v hw []
  simpa using this

theorem decodeElems_encList {α : Type} (esize : Nat) (dec : List Nat → DecodeResult α)
    (enc : α → List Nat) (hpos : 0 < esize) :
    ∀ (xs : List α) (i : Nat) (buffer rest : List Nat),
      (∀ x ∈ xs, (enc x).length = esize) →
      (∀ x ∈ xs, dec (enc x) = .ok x) →
      buffer.drop (i * esize) = encList enc xs ++ rest →
      decodeElems esize dec buffer i xs.length = .ok xs := by
  intro xs
  induction xs with
  | nil => intro i buffer rest _ _ _; rfl
  | cons x xs ih =>
    intro i buffer rest hlen hdec hdrop
    have hxlen : (enc x).length = esize := hlen x (by simp)
    rw [encList, List.append_assoc] at hdrop
    have hblen : (buffer.drop (i * esize)).length =
        esize + (encList enc xs ++ rest).length := by
      rw [hdrop, List.length_append, hxlen]
    rw [List.length_drop] at hblen
    have hle : i * esize + esize ≤ buffer.length := by omega
    have hchunk : (buffer.drop (i * esize)).take (i * esize + esize - i * esize) =
        enc x := by
      rw [Nat.add_sub_cancel_left, hdrop, take_of_append hxlen]
    have hnext : buffer.drop ((i + 1) * esize) = encList enc xs ++ rest := by
      rw [Nat.succ_mul, ← List.drop_drop, hdrop, drop_of_append hxlen]
    rw [List.length_cons]
    rw [decodeElems, slice?_eq_some (Nat.le_add_right _ _) hle, hchunk]
    simp [hdec x (by simp),
      ih (i + 1) buffer rest (fun y hy => hlen y (by simp [hy]))
        (fun y hy => hdec y (by simp [hy])) hnext]

theorem mesh_deserialize_exact (m : Mesh) (hw : m.Wf) :
    Mesh.deserialize (Mesh.serialize m []) = .ok m := by
  unfold Mesh.Wf at hw
  obtain ⟨vs, ix⟩ := m
  obtain ⟨hv, hi, hsz⟩ := hw
  simp only at hv hi hsz
  have hBshape : Mesh.serialize ⟨vs, ix⟩ [] =
      leBytes 8 vs.length ++ (leBytes 8 ix.length ++
        (encList (fun v => Vertex.serialize v []) vs ++ encList (leBytes 4) ix)) := by
    rw [mesh_serialize_eq]
    simp
  have hVlen : (encList (fun v => Vertex.serialize v []) vs).length = 28 * vs.length :=
    length_encList _ 28 vs (fun v _ => length_vertex_serialize v)
  have hIlen : (encList (leBytes 4) ix).length = 4 * ix.length :=
    length_encList _ 4 ix (fun i _ => length_leBytes 4 i)
  have hlenB : (Mesh.serialize ⟨vs, ix⟩ []).length =
      16 + 28 * vs.length + 4 * ix.length := by
    have := length_mesh_serialize ⟨vs, ix⟩
    simpa using this
  have hnv64 : vs.length < 2 ^ 64 := by omega
  have hni64 : ix.length < 2 ^ 64 := by omega
  have hread1 : (Mesh.serialize ⟨vs, ix⟩ []).take 8 = leBytes 8 vs.length := by
    rw [hBshape, take_of_append (length_leBytes 8 _)]
  have hread2 : ((Mesh.serialize ⟨vs, ix⟩ []).drop 8).take 8 = leBytes 8 ix.length := by
    rw [hBshape, drop_of_append (length_leBytes 8 _), take_of_append (length_leBytes 8 _)]
  have hdrop16 : (Mesh.serialize ⟨vs, ix⟩ []).drop 16 =
      encList (fun v => Vertex.serialize v []) vs ++ encList (leBytes 4) ix := by
    rw [hBshape, show (16 : Nat) = 8 + 8 from rfl,
      drop_add_of_append (length_leBytes 8 _), drop_of_append (length_leBytes 8 _)]
  have hdecV : decodeElems VERTEX_SIZE Vertex.deserialize
      (encList (fun v => Vertex.serialize v []) vs ++ encList (leBytes 4) ix)
      0 vs.length = .ok vs := by
    refine decodeElems_encList VERTEX_SIZE Vertex.deserialize
      (fun v => Vertex.serialize v [])
      (by simp [VERTEX_SIZE]) vs 0 _ (encList (leBytes 4) ix) ?_ ?_ ?_
    · intro v _
      simp [length_vertex_serialize, VERTEX_SIZE]
    · intro v hvm
      exact vertex_deserialize_exact v (hv v hvm)
    · simp
  have hdropV : (encList (fun v => Vertex.serialize v []) vs ++
      encList (leBytes 4) ix).drop (vs.length * VERTEX_SIZE) =
      encList (leBytes 4) ix := by
    refine drop_of_append ?_
    rw [hVlen]
    simp [VERTEX_SIZE, Nat.mul_comm]
  have hdecI : decodeElems INDEX_SIZE (fun chunk => DecodeResult.ok (leVal chunk))
      (encList (leBytes 4) ix) 0 ix.length = .ok ix := by
    refine decodeElems_encList INDEX_SIZE _ (leBytes 4)
      (by simp [INDEX_SIZE]) ix 0 _ [] ?_ ?_ ?_
    · intro i _
      simp [length_leBytes, INDEX_SIZE]
    · intro i him
      simp [leVal_leBytes4 (hi i him)]
    · simp
  rw [Mesh.deserialize, if_neg (by omega)]
  simp only [VERTEX_SIZE, INDEX_SIZE, hread1, hread2, hdrop16,
    leVal_leBytes8 hnv64, leVal_leBytes8 hni64,
    Nat.mod_eq_of_lt (show 28 * vs.length < 2 ^ 64 by omega),
    Nat.mod_eq_of_lt (show vs.length * 28 < 2 ^ 64 by omega),
    Nat.mod_eq_of_lt (show 4 * ix.length < 2 ^ 64 by omega)]
  rw [if_neg (by rw [List.length_append, hVlen, hIlen]; omega)]
  rw [if_neg (show ¬(2 ^ 63 ≤ vs.length * 28) by omega)]
  simp only [VERTEX_SIZE, INDEX_SIZE] at hdecV hdropV hdecI
  simp only [hdecV]
  rw [if_neg (show ¬(2 ^ 63 ≤ ix.length * 4) by omega)]
  simp [hdropV, hIlen, hdecI]

theorem sector_deserialize_exact (s : Sector) (hw : s.Wf) :
    Sector.deserialize (Sector.serialize s []) = .ok s := by
  have hf : s.floor_mesh.Wf := hw.1
  have hc : s.ceiling_mesh.Wf := hw.2.1
  have hwl : s.wall_mesh.Wf := hw.2.2.1
  have hL1 : (Mesh.serialize s.floor_mesh []).length < 2 ^ 64 := by
    have h := hf.2.2
    omega
  have hL2 : (Mesh.serialize s.ceiling_mesh []).length < 2 ^ 64 := by
    have h := hc.2.2
    omega
  have hL3 : (Mesh.serialize s.wall_mesh []).length < 2 ^ 64 := by
    have h := hwl.2.2
    omega
  have hBshape : Sector.serialize s [] =
      leBytes 8 (Mesh.serialize s.floor_mesh []).length ++
        (Mesh.serialize s.floor_mesh [] ++
          (leBytes 8 (Mesh.serialize s.ceiling_mesh []).length ++
            (Mesh.serialize s.ceiling_mesh [] ++
              (leBytes 8 (Mesh.serialize s.wall_mesh []).length ++
                Mesh.serialize s.wall_mesh [])))) := by
    rw [sector_serialize_eq]
    simp
  have h1 : slice? (Sector.serialize s []) 0 8 =
      some (leBytes 8 (Mesh.serialize s.floor_mesh []).length) := by
    rw [slice?_eq_some (by omega) (by rw [hBshape]; simp [length_leBytes])]
    rw [Nat.sub_zero, List.drop_zero, hBshape, take_of_append (length_leBytes 8 _)]
  have h2 : (Sector.serialize s []).drop 8 =
      Mesh.serialize s.floor_mesh [] ++
        (leBytes 8 (Mesh.serialize s.ceiling_mesh []).length ++
          (Mesh.serialize s.ceiling_mesh [] ++
            (leBytes 8 (Mesh.serialize s.wall_mesh []).length ++
              Mesh.serialize s.wall_mesh []))) := by
    rw [hBshape, drop_of_append (length_leBytes 8 _)]
  have h3 : slice? (Mesh.serialize s.floor_mesh [] ++
      (leBytes 8 (Mesh.serialize s.ceiling_mesh []).length ++
        (Mesh.serialize s.ceiling_mesh [] ++
          (leBytes 8 (Mesh.serialize s.wall_mesh []).length ++
            Mesh.serialize s.wall_mesh [])))) 0
      (Mesh.serialize s.floor_mesh []).length =
      some (Mesh.serialize s.floor_mesh []) := by
    rw [slice?_eq_some (by omega) (by simp), Nat.sub_zero, List.drop_zero,
      take_of_append rfl]
  have h4 : (Mesh.serialize s.floor_mesh [] ++
      (leBytes 8 (Mesh.serialize s.ceiling_mesh []).length ++
        (Mesh.serialize s.ceiling_mesh [] ++
          (leBytes 8 (Mesh.serialize s.wall_mesh []).length ++
            Mesh.serialize s.wall_mesh [])))).drop
      (Mesh.serialize s.floor_mesh []).length =
      leBytes 8 (Mesh.serialize s.ceiling_mesh []).length ++
        (Mesh.serialize s.ceiling_mesh [] ++
          (leBytes 8 (Mesh.serialize s.wall_mesh []).length ++
            Mesh.serialize s.wall_mesh [])) := drop_of_append rfl
  have h5 : slice? (leBytes 8 (Mesh.serialize s.ceiling_mesh []).length ++
      (Mesh.serialize s.ceiling_mesh [] ++
        (leBytes 8 (Mesh.serialize s.wall_mesh []).length ++
          Mesh.serialize s.wall_mesh []))) 0 8 =
      some (leBytes 8 (Mesh.serialize s.ceiling_mesh []).length) := by
    rw [slice?_eq_some (by omega) (by simp [length_leBytes]), Nat.sub_zero,
      List.drop_zero, take_of_append (length_leBytes 8 _)]
  have h6 : (leBytes 8 (Mesh.serialize s.ceiling_mesh []).length ++
      (Mesh.serialize s.ceiling_mesh [] ++
        (leBytes 8 (Mesh.serialize s.wall_mesh []).length ++
          Mesh.serialize s.wall_mesh []))).drop 8 =
      Mesh.serialize s.ceiling_mesh [] ++
        (leBytes 8 (Mesh.serialize s.wall_mesh []).length ++
          Mesh.serialize s.wall_mesh []) := drop_of_append (length_leBytes 8 _)
  have h7 : slice? (Mesh.serialize s.ceiling_mesh [] ++
      (leBytes 8 (Mesh.serialize s.wall_mesh []).length ++
        Mesh.serialize s.wall_mesh [])) 0
      (Mesh.serialize s.ceiling_mesh []).length =
      some (Mesh.serialize s.ceiling_mesh []) := by
    rw [slice?_eq_some (by omega) (by simp), Nat.sub_zero, List.drop_zero,
      take_of_append rfl]
  have h8 : (Mesh.serialize s.ceiling_mesh [] ++
      (leBytes 8 (Mesh.serialize s.wall_mesh []).length ++
        Mesh.serialize s.wall_mesh [])).drop
      (Mesh.serialize s.ceiling_mesh []).length =
      leBytes 8 (Mesh.serialize s.wall_mesh []).length ++
        Mesh.serialize s.wall_mesh [] := drop_of_append rfl
  have h9 : slice? (leBytes 8 (Mesh.serialize s.wall_mesh []).length ++
      Mesh.serialize s.wall_mesh []) 0 8 =
      some (leBytes 8 (Mesh.serialize s.wall_mesh []).length) := by
    rw [slice?_eq_some (by omega) (by simp [length_leBytes]), Nat.sub_zero,
      List.drop_zero, take_of_append (length_leBytes 8 _)]
  have h10 : (leBytes 8 (Mesh.serialize s.wall_mesh []).length ++
      Mesh.serialize s.wall_mesh []).drop 8 =
      Mesh.serialize s.wall_mesh [] := drop_of_append (length_leBytes 8 _)
  have h11 : slice? (Mesh.serialize s.wall_mesh []) 0
      (Mesh.serialize s.wall_mesh []).length =
      some (Mesh.serialize s.wall_mesh []) := by
    rw [slice?_eq_some (by omega) (by omega), Nat.sub_zero, List.drop_zero,
      List.take_of_length_le (by omega)]
  simp only [Sector.deserialize, h1, h2, leVal_leBytes8 hL1, h3,
    mesh_deserialize_exact s.floor_mesh hf, DecodeResult.bind, h4,
    h5, leVal_leBytes8 hL2, h6, h7, mesh_deserialize_exact s.ceiling_mesh hc,
    h8, h9, leVal_leBytes8 hL3, h10, h11,
    mesh_deserialize_exact s.wall_mesh hwl]

theorem decodeSectors_encList :
    ∀ (ss : List Sector) (offset : Nat) (buffer rest : List Nat),
      (∀ s ∈ ss, s.Wf) →
      buffer.drop offset =
        encList (fun s => leBytes 8 (Sector.serialize s []).length ++
          Sector.serialize s []) ss ++ rest →
      decodeSectors buffer offset ss.length = .ok ss := by
  intro ss
  induction ss with
  | nil => intro offset buffer rest _ _; rfl
  | cons s ss ih =>
    intro offset buffer rest hwf hdrop
    have hsw : s.Wf := hwf s (by simp)
    have hL : (Sector.serialize s []).length < 2 ^ 64 := hsw.2.2.2
    simp only [encList] at hdrop
    rw [List.append_assoc, List.append_assoc] at hdrop
    have hblen := congrArg List.length hdrop
    rw [List.length_drop] at hblen
    simp only [List.length_append, length_leBytes] at hblen
    have hle8 : offset + 8 ≤ buffer.length := by omega
    have h1 : slice? buffer offset (offset + 8) =
        some (leBytes 8 (Sector.serialize s []).length) := by
      rw [slice?_eq_some (by omega) hle8, Nat.add_sub_cancel_left, hdrop,
        take_of_append (length_leBytes 8 _)]
    have hdrop8 : buffer.drop (offset + 8) =
        Sector.serialize s [] ++
          (encList (fun t => leBytes 8 (Sector.serialize t []).length ++
            Sector.serialize t []) ss ++ rest) := by
      rw [← List.drop_drop, hdrop, drop_of_append (length_leBytes 8 _)]
    have hblen2 := congrArg List.length hdrop8
    rw [List.length_drop] at hblen2
    simp only [List.length_append] at hblen2
    have hle2 : offset + 8 + (Sector.serialize s []).length ≤ buffer.length := by
      omega
    have h2 : slice? buffer (offset + 8) (offset + 8 + (Sector.serialize s []).length) =
        some (Sector.serialize s []) := by
      rw [slice?_eq_some (by omega) hle2, Nat.add_sub_cancel_left, hdrop8,
        take_of_append rfl]
    have hnext : buffer.drop (offset + (Sector.serialize s []).length + 8) =
        encList (fun t => leBytes 8 (Sector.serialize t []).length ++
          Sector.serialize t []) ss ++ rest := by
      rw [show offset + (Sector.serialize s []).length + 8 =
          offset + 8 + (Sector.serialize s []).length by omega,
        ← List.drop_drop, hdrop8, drop_of_append rfl]
    rw [List.length_cons, decodeSectors]
    simp only [h1, leVal_leBytes8 hL, h2, sector_deserialize_exact s hsw,
      DecodeResult.bind,
      ih (offset + (Sector.serialize s []).length + 8) buffer rest
        (fun t ht => hwf t (by simp [ht])) hnext]

theorem map_deserialize_of_serialize_append (m : Map) (hw : m.Wf)
    (extra : List Nat) :
    Map.deserialize (Map.serialize m [] ++ extra) = .ok m := by
  have hcount : m.sectors.length < 2 ^ 64 := hw.2
  have hBshape : Map.serialize m [] ++ extra =
      HEADER_MAGIC ++ (leBytes 4 CURRENT_VERSION ++
        (leBytes 8 m.sectors.length ++
          (encList (fun s => leBytes 8 (Sector.serialize s []).length ++
            Sector.serialize s []) m.sectors ++ extra))) := by
    rw [map_serialize_eq]
    simp
  have hmlen : HEADER_MAGIC.length = 4 := rfl
  have hlenB : 16 ≤ (Map.serialize m [] ++ extra).length := by
    rw [hBshape]
    simp [length_leBytes, HEADER_MAGIC]
    omega
  have h_take4 : (Map.serialize m [] ++ extra).take 4 = HEADER_MAGIC := by
    rw [hBshape, take_of_append hmlen]
  have h_ver : ((Map.serialize m [] ++ extra).drop 4).take 4 =
      leBytes 4 CURRENT_VERSION := by
    rw [hBshape, drop_of_append hmlen, take_of_append (length_leBytes 4 _)]
  have h_drop8 : (Map.serialize m [] ++ extra).drop 8 =
      leBytes 8 m.sectors.length ++
        (encList (fun s => leBytes 8 (Sector.serialize s []).length ++
          Sector.serialize s []) m.sectors ++ extra) := by
    rw [hBshape, show (8 : Nat) = 4 + 4 from rfl, drop_add_of_append hmlen,
      drop_of_append (length_leBytes 4 _)]
  have hdecS : decodeSectors
      (encList (fun s => leBytes 8 (Sector.serialize s []).length ++
        Sector.serialize s []) m.sectors ++ extra) 0 m.sectors.length =
      .ok m.sectors :=
    decodeSectors_encList m.sectors 0 _ extra (fun t ht => hw.1 t ht)
      (by simp)
  rw [Map.deserialize, if_neg (by simp only [HEADER_SIZE]; omega), h_take4,
    if_neg (by simp), h_ver,
    leVal_leBytes4 (by norm_num [CURRENT_VERSION]), if_neg (by simp)]
  simp only [h_drop8]
  rw [if_neg (by simp [length_leBytes])]
  rw [take_of_append (length_leBytes 8 _), leVal_leBytes8 hcount,
    drop_of_append (length_leBytes 8 _), hdecS]
  rfl

theorem decodeElems_total {α : Type} (esize : Nat) (dec : List Nat → DecodeResult α)
    (hpos : 0 < esize) (hdec : ∀ chunk : List Nat, chunk.length = esize →
      ∃ a, dec chunk = .ok a) :
    ∀ (n i : Nat) (buffer : List Nat), (i + n) * esize ≤ buffer.length →
      ∃ xs, decodeElems esize dec buffer i n = .ok xs ∧ xs.length = n := by
  intro n
  induction n with
  | zero => intro i buffer _; exact ⟨[], rfl, rfl⟩
  | succ n ih =>
    intro i buffer hle
    have hle1 : i * esize + esize ≤ buffer.length := by
      have h1 : (i + 1) * esize ≤ (i + (n + 1)) * esize :=
        Nat.mul_le_mul_right esize (by omega)
      rw [Nat.succ_mul] at h1
      omega
    have hchunklen : ((buffer.drop (i * esize)).take esize).length = esize := by
      rw [List.length_take, List.length_drop]
      omega
    obtain ⟨a, ha⟩ := hdec _ hchunklen
    have hnext : (i + 1 + n) * esize ≤ buffer.length := by
      have : (i + 1 + n) * esize = (i + (n + 1)) * esize := by ring
      omega
    obtain ⟨xs, hxs, hxslen⟩ := ih (i + 1) buffer hnext
    refine ⟨a :: xs, ?_, by simp [hxslen]⟩
    rw [decodeElems, slice?_eq_some (Nat.le_add_right _ _) hle1,
      Nat.add_sub_cancel_left]
    simp [ha, hxs]

/-!
Claim theorems.
-/

/-- C1: the claim states that decoding any strict prefix of a validly-encoded
buffer returns a buffer-too-small error and never panics.  The code violates
this: `Sector::deserialize` and the sector loop of `Map::deserialize` slice
with no bounds check, so a truncation point inside a sector block makes the
decoder panic instead of returning an error.  Witnessed here on the 96-byte
encoding of a one-sector map (three empty meshes) truncated to 95 bytes, and
on a 72-byte valid sector payload truncated to 7 bytes. -/
theorem truncated_decode_panics :
    (Map.serialize ⟨[⟨⟨[], []⟩, ⟨[], []⟩, ⟨[], []⟩⟩]⟩ []).length = 96 ∧
    Map.deserialize ((Map.serialize ⟨[⟨⟨[], []⟩, ⟨[], []⟩, ⟨[], []⟩⟩]⟩ []).take 95) =
      .panic ∧
    (Sector.serialize ⟨⟨[], []⟩, ⟨[], []⟩, ⟨[], []⟩⟩ []).length = 72 ∧
    Sector.deserialize ((Sector.serialize ⟨⟨[], []⟩, ⟨[], []⟩, ⟨[], []⟩⟩ []).take 7) =
      .panic := by
  decide

/-- C2: for every well-formed `Map` value (all `f32` bit patterns and `u32`
indices in range and sizes representable in `u64`, which every Rust value
satisfies), deserializing the serialization yields the map back exactly —
including index values that are out of range for their vertex buffer, which
are not validated. -/
theorem map_roundtrip_exact (m : Map) (hw : m.Wf) :
    Map.deserialize (Map.serialize m []) = .ok m := by
  have h := map_deserialize_of_serialize_append m hw []
  simpa using h

/-- Witness for C2 at a concrete map whose meshes carry out-of-range indices
(index 5 against a 1-vertex buffer, index 9 against an empty one). -/
theorem map_roundtrip_exact_witness :
    Map.Wf ⟨[⟨⟨[⟨1, 2, 3, ⟨4, 5, 6, 7⟩⟩], [5]⟩, ⟨[], [9]⟩, ⟨[], []⟩⟩]⟩ ∧
    Map.deserialize
      (Map.serialize ⟨[⟨⟨[⟨1, 2, 3, ⟨4, 5, 6, 7⟩⟩], [5]⟩, ⟨[], [9]⟩, ⟨[], []⟩⟩]⟩ []) =
      .ok ⟨[⟨⟨[⟨1, 2, 3, ⟨4, 5, 6, 7⟩⟩], [5]⟩, ⟨[], [9]⟩, ⟨[], []⟩⟩]⟩ :=
  ⟨by decide, map_roundtrip_exact _ (by decide)⟩

/-- C3 counterexample: the claim asserts `IncorrectMagic` for every buffer
whose first 4 bytes exist and differ from `"MIME"`, regardless of length; but
the header-size guard runs first, so the 4-byte buffer `[0,0,0,0]` (first 4
bytes exist and are not the magic) fails with `BufferToSmallMap`, not
`IncorrectMagic`. -/
theorem short_buffer_magic_counterexample :
    ([0, 0, 0, 0] : List Nat).length = 4 ∧
    ([0, 0, 0, 0] : List Nat).take 4 ≠ HEADER_MAGIC ∧
    Map.deserialize [0, 0, 0, 0] = .err .BufferToSmallMap ∧
    Map.deserialize [0, 0, 0, 0] ≠ .err .IncorrectMagic := by
  decide

/-- C3 amended: for every buffer of at least `HEADER_SIZE` (8) bytes whose
first 4 bytes are not `"MIME"`, `Map::deserialize` fails with
`IncorrectMagic`, regardless of the remaining content. -/
theorem incorrect_magic_amended (buffer : List Nat)
    (h8 : HEADER_SIZE ≤ buffer.length) (hm : buffer.take 4 ≠ HEADER_MAGIC) :
    Map.deserialize buffer = .err .IncorrectMagic := by
  rw [Map.deserialize, if_neg (by omega), if_pos hm]

/-- Witness for the amended C3 at a concrete 8-byte buffer. -/
theorem incorrect_magic_amended_witness :
    HEADER_SIZE ≤ ([1, 2, 3, 4, 5, 6, 7, 8] : List Nat).length ∧
    ([1, 2, 3, 4, 5, 6, 7, 8] : List Nat).take 4 ≠ HEADER_MAGIC ∧
    Map.deserialize [1, 2, 3, 4, 5, 6, 7, 8] = .err .IncorrectMagic :=
  ⟨by decide, by decide, incorrect_magic_amended _ (by decide) (by decide)⟩

/-- C4 counterexample: the claim quantifies over every input buffer, but at
16-byte buffers with astronomically large counts the code panics instead of
returning the claimed buffer-too-small error.  With `vertex_count = 0`,
`index_count = 2^61` the claim's third condition holds (0 remaining bytes are
fewer than `4 * 2^61`) yet `Vec::with_capacity(index_count)` — called at
map.rs:224, before the index-region guard at map.rs:226 — exceeds the
`isize::MAX` capacity limit and panics, in every build profile.  With
`vertex_count = 2^62`, `index_count = 0` the claim's second condition holds
(0 fewer than `28 * 2^62`) yet the `usize` product in the guard wraps to 0 in
release, the guard passes, and `Vec::with_capacity(2^62)` panics (a debug
build already panics at the multiply). -/
theorem huge_count_mesh_decode_panics :
    (((leBytes 8 0 ++ leBytes 8 (2 ^ 61)).drop 16).length <
        4 * leVal (((leBytes 8 0 ++ leBytes 8 (2 ^ 61)).drop 8).take 8) ∧
      Mesh.deserialize (leBytes 8 0 ++ leBytes 8 (2 ^ 61)) = .panic ∧
      Mesh.deserialize (leBytes 8 0 ++ leBytes 8 (2 ^ 61)) ≠
        .err .BufferToSmallSector) ∧
    (((leBytes 8 (2 ^ 62) ++ leBytes 8 0).drop 16).length <
        28 * leVal ((leBytes 8 (2 ^ 62) ++ leBytes 8 0).take 8) ∧
      Mesh.deserialize (leBytes 8 (2 ^ 62) ++ leBytes 8 0) = .panic ∧
      Mesh.deserialize (leBytes 8 (2 ^ 62) ++ leBytes 8 0) ≠
        .err .BufferToSmallSector) := by
  decide

/-- C4, amended: restricted to buffers whose decoded counts keep the
decoder's `usize` size products and `Vec::with_capacity` requests below the
`isize::MAX` threshold (`vertex_count * 28 < 2^63` and
`index_count * 4 < 2^63` — satisfied by every count a real mesh can have),
`Mesh::deserialize` fails with a buffer-too-small error (the
`BufferToSmallSector` variant) exactly when the buffer has fewer than 16
bytes for the two counts, or the remainder is shorter than
`vertex_count * 28` bytes, or the remainder after the vertex region is
shorter than `index_count * 4` bytes; otherwise it succeeds, decoding
`vertex_count` vertices and then `index_count` indices.  Counts at or beyond
those thresholds panic instead (see the counterexample).  Under these
hypotheses no product overflows, so release and debug profiles agree. -/
theorem mesh_deserialize_buffer_too_small_iff (buffer : List Nat)
    (hvc : 28 * leVal (buffer.take 8) < 2 ^ 63)
    (hic : 4 * leVal ((buffer.drop 8).take 8) < 2 ^ 63) :
    (Mesh.deserialize buffer = .err .BufferToSmallSector ↔
      (buffer.length < 16 ∨
        (buffer.drop 16).length < 28 * leVal (buffer.take 8) ∨
        ((buffer.drop 16).drop (leVal (buffer.take 8) * 28)).length <
          4 * leVal ((buffer.drop 8).take 8))) ∧
    ((16 ≤ buffer.length ∧
      28 * leVal (buffer.take 8) ≤ (buffer.drop 16).length ∧
      4 * leVal ((buffer.drop 8).take 8) ≤
        ((buffer.drop 16).drop (leVal (buffer.take 8) * 28)).length) →
      ∃ mm, Mesh.deserialize buffer = .ok mm ∧
        mm.vertex_buffer.length = leVal (buffer.take 8) ∧
        mm.index_buffer.length = leVal ((buffer.drop 8).take 8)) := by
  have hvdec : ∀ chunk : List Nat, chunk.length = 28 →
      ∃ v, Vertex.deserialize chunk = .ok v := by
    intro chunk hc
    rw [Vertex.deserialize, if_neg (by simp only [VERTEX_SIZE]; omega)]
    exact ⟨_, rfl⟩
  by_cases h16 : buffer.length < 16
  · have heval : Mesh.deserialize buffer = .err .BufferToSmallSector := by
      rw [Mesh.deserialize, if_pos h16]
    refine ⟨iff_of_true heval (Or.inl h16), ?_⟩
    intro hc
    exact absurd hc.1 (by omega)
  · by_cases h2 : (buffer.drop 16).length < 28 * leVal (buffer.take 8)
    · have heval : Mesh.deserialize buffer = .err .BufferToSmallSector := by
        rw [Mesh.deserialize, if_neg h16]
        simp only [VERTEX_SIZE, INDEX_SIZE,
          Nat.mod_eq_of_lt (show 28 * leVal (buffer.take 8) < 2 ^ 64 by omega),
          Nat.mod_eq_of_lt (show leVal (buffer.take 8) * 28 < 2 ^ 64 by omega),
          Nat.mod_eq_of_lt
            (show 4 * leVal ((buffer.drop 8).take 8) < 2 ^ 64 by omega)]
        rw [if_pos h2]
      refine ⟨iff_of_true heval (Or.inr (Or.inl h2)), ?_⟩
      intro hc
      exact absurd hc.2.1 (by omega)
    · obtain ⟨vs, hvs, hvslen⟩ :=
        decodeElems_total 28 Vertex.deserialize (by omega) hvdec
          (leVal (buffer.take 8)) 0 (buffer.drop 16) (by omega)
      by_cases h3 : ((buffer.drop 16).drop (leVal (buffer.take 8) * 28)).length <
          4 * leVal ((buffer.drop 8).take 8)
      · have heval : Mesh.deserialize buffer = .err .BufferToSmallSector := by
          rw [Mesh.deserialize, if_neg h16]
          simp only [VERTEX_SIZE, INDEX_SIZE,
            Nat.mod_eq_of_lt (show 28 * leVal (buffer.take 8) < 2 ^ 64 by omega),
            Nat.mod_eq_of_lt (show leVal (buffer.take 8) * 28 < 2 ^ 64 by omega),
            Nat.mod_eq_of_lt
              (show 4 * leVal ((buffer.drop 8).take 8) < 2 ^ 64 by omega)]
          rw [if_neg h2,
            if_neg (show ¬(2 ^ 63 ≤ leVal (buffer.take 8) * 28) by omega)]
          simp only [hvs]
          rw [if_neg
              (show ¬(2 ^ 63 ≤ leVal ((buffer.drop 8).take 8) * 4) by omega),
            if_pos h3]
        refine ⟨iff_of_true heval (Or.inr (Or.inr h3)), ?_⟩
        intro hc
        exact absurd hc.2.2 (by omega)
      · obtain ⟨ixs, hixs, hixslen⟩ :=
          decodeElems_total 4 (fun chunk => DecodeResult.ok (leVal chunk))
            (by omega) (fun chunk _ => ⟨leVal chunk, rfl⟩)
            (leVal ((buffer.drop 8).take 8)) 0
            ((buffer.drop 16).drop (leVal (buffer.take 8) * 28)) (by omega)
        have heval : Mesh.deserialize buffer = .ok ⟨vs, ixs⟩ := by
          rw [Mesh.deserialize, if_neg h16]
          simp only [VERTEX_SIZE, INDEX_SIZE,
            Nat.mod_eq_of_lt (show 28 * leVal (buffer.take 8) < 2 ^ 64 by omega),
            Nat.mod_eq_of_lt (show leVal (buffer.take 8) * 28 < 2 ^ 64 by omega),
            Nat.mod_eq_of_lt
              (show 4 * leVal ((buffer.drop 8).take 8) < 2 ^ 64 by omega)]
          rw [if_neg h2,
            if_neg (show ¬(2 ^ 63 ≤ leVal (buffer.take 8) * 28) by omega)]
          simp only [hvs]
          rw [if_neg
              (show ¬(2 ^ 63 ≤ leVal ((buffer.drop 8).take 8) * 4) by omega),
            if_neg h3]
          simp only [hixs]
        refine ⟨iff_of_false (by rw [heval]; simp)
          (by rintro (h | h | h) <;> omega), ?_⟩
        intro hc
        exact ⟨⟨vs, ixs⟩, heval, by simpa using hvslen, by simpa using hixslen⟩

/-- Witness for the amended C4's success branch at a 16-byte buffer of zero
counts, with both count-bound hypotheses discharged there. -/
theorem mesh_deserialize_buffer_too_small_iff_witness :
    28 * leVal ((List.replicate 16 0).take 8) < 2 ^ 63 ∧
    4 * leVal (((List.replicate 16 0).drop 8).take 8) < 2 ^ 63 ∧
    (∃ mm, Mesh.deserialize (List.replicate 16 0) = .ok mm ∧
      mm.vertex_buffer.length = leVal ((List.replicate 16 0).take 8) ∧
      mm.index_buffer.length = leVal (((List.replicate 16 0).drop 8).take 8)) :=
  ⟨by decide, by decide,
   (mesh_deserialize_buffer_too_small_iff (List.replicate 16 0)
     (by decide) (by decide)).2 (by decide)⟩

/-- C5: `Sector::serialize` emits exactly three length-prefixed blocks in the
fixed order floor, ceiling, wall; each prefix is the 8-byte little-endian
encoding of the byte length of that mesh's serialized form (not an element
count), and decodes back to that length whenever it fits in a `u64`. -/
theorem sector_serialize_layout (s : Sector) (buffer : List Nat) :
    Sector.serialize s buffer =
      buffer ++ (leBytes 8 (Mesh.serialize s.floor_mesh []).length ++
        (Mesh.serialize s.floor_mesh [] ++
          (leBytes 8 (Mesh.serialize s.ceiling_mesh []).length ++
            (Mesh.serialize s.ceiling_mesh [] ++
              (leBytes 8 (Mesh.serialize s.wall_mesh []).length ++
                Mesh.serialize s.wall_mesh []))))) ∧
    (∀ n : Nat, (leBytes 8 n).length = 8) ∧
    (∀ n : Nat, n < 2 ^ 64 → leVal (leBytes 8 n) = n) :=
  ⟨sector_serialize_eq s buffer, fun n => length_leBytes 8 n,
   fun _ hn => leVal_leBytes8 hn⟩

/-- Witness for C5: the layout at a concrete sector of empty meshes (each
mesh serializes to 16 bytes) and the prefix decoding fact at 16. -/
theorem sector_serialize_layout_witness :
    Sector.serialize ⟨⟨[], []⟩, ⟨[], []⟩, ⟨[], []⟩⟩ [] =
      [] ++ (leBytes 8 (Mesh.serialize (⟨[], []⟩ : Mesh) []).length ++
        (Mesh.serialize (⟨[], []⟩ : Mesh) [] ++
          (leBytes 8 (Mesh.serialize (⟨[], []⟩ : Mesh) []).length ++
            (Mesh.serialize (⟨[], []⟩ : Mesh) [] ++
              (leBytes 8 (Mesh.serialize (⟨[], []⟩ : Mesh) []).length ++
                Mesh.serialize (⟨[], []⟩ : Mesh) []))))) ∧
    (16 : Nat) < 2 ^ 64 ∧ leVal (leBytes 8 16) = 16 :=
  ⟨(sector_serialize_layout ⟨⟨[], []⟩, ⟨[], []⟩, ⟨[], []⟩⟩ []).1, by decide,
   (sector_serialize_layout ⟨⟨[], []⟩, ⟨[], []⟩, ⟨[], []⟩⟩ []).2.2 16 (by decide)⟩

/-- C6: `Vertex::serialize` never fails and appends exactly 28 bytes, the
fields x, y, z, r, g, b, a in order, each as the 4-byte little-endian image
of its `f32` bit pattern.  The concrete part is the spec scenario
`Vertex(0, 1, 2, [3, 4, 5, 6])`, whose field bit patterns are 0,
0x3F800000, 0x40000000, 0x40400000, 0x40800000, 0x40A00000, 0x40C00000. -/
theorem vertex_serialize_layout (v : Vertex) (buffer : List Nat) :
    Vertex.serialize v buffer =
      buffer ++ (leBytes 4 v.x ++ (leBytes 4 v.y ++ (leBytes 4 v.z ++
        (leBytes 4 v.color.r ++ (leBytes 4 v.color.g ++
          (leBytes 4 v.color.b ++ leBytes 4 v.color.a)))))) ∧
    (Vertex.serialize v buffer).length = buffer.length + 28 ∧
    Vertex.serialize ⟨0, 1065353216, 1073741824,
        ⟨1077936128, 1082130432, 1084227584, 1086324736⟩⟩ [] =
      [0, 0, 0, 0, 0, 0, 128, 63, 0, 0, 0, 64, 0, 0, 64, 64,
       0, 0, 128, 64, 0, 0, 160, 64, 0, 0, 192, 64] := by
  refine ⟨by simp [Vertex.serialize], ?_, by decide⟩
  simp [Vertex.serialize, length_leBytes]

/-- C7: deserializing the 28-byte serialization of any well-formed vertex
(all seven bit patterns below `2^32`, automatic for `f32`) returns the vertex
unchanged: the transcription is bit-exact, so NaN and infinity patterns are
carried through verbatim. -/
theorem vertex_roundtrip_exact (v : Vertex) (h : v.Wf) :
    Vertex.deserialize (Vertex.serialize v []) = .ok v :=
  vertex_deserialize_exact v h

/-- Witness for C7 at a vertex carrying a quiet-NaN pattern (0x7FC00000) and
the positive-infinity pattern (0x7F800000). -/
theorem vertex_roundtrip_exact_witness :
    Vertex.Wf ⟨2143289344, 2139095040, 0, ⟨1, 2, 3, 4⟩⟩ ∧
    Vertex.deserialize
      (Vertex.serialize ⟨2143289344, 2139095040, 0, ⟨1, 2, 3, 4⟩⟩ []) =
      .ok ⟨2143289344, 2139095040, 0, ⟨1, 2, 3, 4⟩⟩ :=
  ⟨by decide, vertex_roundtrip_exact _ (by decide)⟩

/-- C8: a map with no sectors serializes to exactly the 16 bytes
magic ++ version 1 ++ sector count 0, and those 16 bytes deserialize back to
the empty map. -/
theorem empty_map_roundtrip :
    Map.serialize ⟨[]⟩ [] =
      [77, 73, 77, 69, 1, 0, 0, 0, 0, 0, 0, 0, 0, 0, 0, 0] ∧
    (Map.serialize ⟨[]⟩ []).length = 16 ∧
    Map.deserialize (Map.serialize ⟨[]⟩ []) = .ok ⟨[]⟩ := by
  decide

/-- C9: `Map::deserialize` ignores trailing bytes: appending any byte
sequence after a valid serialization leaves the decode result unchanged (and
successful) — the decoder stops after `sector_count` sector blocks and never
checks that the buffer was fully consumed. -/
theorem map_deserialize_trailing_bytes (m : Map) (hw : m.Wf)
    (extra : List Nat) :
    Map.deserialize (Map.serialize m [] ++ extra) =
      Map.deserialize (Map.serialize m []) ∧
    Map.deserialize (Map.serialize m [] ++ extra) = .ok m := by
  have h1 := map_deserialize_of_serialize_append m hw extra
  have h2 := map_deserialize_of_serialize_append m hw []
  simp only [List.append_nil] at h2
  exact ⟨h1.trans h2.symm, h1⟩

/-- Witness for C9: a one-sector map with three trailing garbage bytes. -/
theorem map_deserialize_trailing_bytes_witness :
    Map.Wf ⟨[⟨⟨[], []⟩, ⟨[], []⟩, ⟨[], []⟩⟩]⟩ ∧
    (Map.deserialize
        (Map.serialize ⟨[⟨⟨[], []⟩, ⟨[], []⟩, ⟨[], []⟩⟩]⟩ [] ++ [9, 9, 9]) =
      Map.deserialize (Map.serialize ⟨[⟨⟨[], []⟩, ⟨[], []⟩, ⟨[], []⟩⟩]⟩ []) ∧
    Map.deserialize
        (Map.serialize ⟨[⟨⟨[], []⟩, ⟨[], []⟩, ⟨[], []⟩⟩]⟩ [] ++ [9, 9, 9]) =
      .ok ⟨[⟨⟨[], []⟩, ⟨[], []⟩, ⟨[], []⟩⟩]⟩) :=
  ⟨by decide,
   map_deserialize_trailing_bytes ⟨[⟨⟨[], []⟩, ⟨[], []⟩, ⟨[], []⟩⟩]⟩
     (by decide) [9, 9, 9]⟩

/-- C10: every serializer is append-only: called on any initial buffer it
returns that buffer extended with the same bytes it would produce on an
empty buffer, so the prior contents survive unchanged and the appended bytes
do not depend on them. -/
theorem serialize_append_only (buffer : List Nat) :
    (∀ v : Vertex, Vertex.serialize v buffer = buffer ++ Vertex.serialize v []) ∧
    (∀ m : Mesh, Mesh.serialize m buffer = buffer ++ Mesh.serialize m []) ∧
    (∀ s : Sector, Sector.serialize s buffer = buffer ++ Sector.serialize s []) ∧
    (∀ m : Map, Map.serialize m buffer = buffer ++ Map.serialize m []) :=
  ⟨fun v => vertex_serialize_append v buffer,
   fun m => mesh_serialize_append m buffer,
   fun s => sector_serialize_append s buffer,
   fun m => map_serialize_append m buffer⟩
